import Mathlib

/-!
Shallow embedding of `src/main.rs` of `udp_to_csv`: a UDP capture-and-decode
pipeline.  Bytes are modelled as `Nat` (values < 256), Rust strings as
`List Char`, the mpsc channel as an explicit list of messages, and the
writer/receive loops as step functions folded over those lists.
-/

/-- The `DataType` enum of the source (`enum DataType { Bool, U8, U16, I8, I16 }`). -/
inductive DataType
  | Bool
  | U8
  | U16
  | I8
  | I16
deriving DecidableEq

/-- Kinds of `std::io::Error` the decode loops distinguish: `UnexpectedEof`
versus every other kind (the `_` arm). -/
inductive ReadErrorKind
  | unexpectedEof
  | other
deriving DecidableEq

/-- `cursor.read_u8()` on an in-memory cursor: one byte, or `UnexpectedEof`
when the buffer is exhausted.  An in-memory `Cursor<Vec<u8>>` can fail in no
other way, which the model reflects. -/
def read_u8 : List Nat → Except ReadErrorKind (Nat × List Nat)
  | [] => Except.error ReadErrorKind.unexpectedEof
  | b :: rest => Except.ok (b, rest)

/-- `cursor.read_u16::<NetworkEndian>()`: two bytes big-endian, or
`UnexpectedEof` when fewer than two bytes remain. -/
def read_u16_be : List Nat → Except ReadErrorKind (Nat × List Nat)
  | b1 :: b2 :: rest => Except.ok (b1 * 256 + b2, rest)
  | _ => Except.error ReadErrorKind.unexpectedEof

/-- Two's-complement reinterpretation of one byte, as done by `read_i8`. -/
def toI8 (b : Nat) : Int := if b < 128 then (b : Int) else (b : Int) - 256

/-- Two's-complement reinterpretation of a big-endian 16-bit value, as done by
`read_i16::<NetworkEndian>`. -/
def toI16 (n : Nat) : Int := if n < 32768 then (n : Int) else (n : Int) - 65536

/-- One iteration of the per-`DataType` `'read` loop in `writer`: the values
pushed by that iteration together with the remaining buffer, or the read
error.  The Bool arm turns one byte into the eight bits `value >> i & 1`
for `i = 0..8`, least significant first. -/
def decodeStep (dt : DataType) (buf : List Nat) : Except ReadErrorKind (List Int × List Nat) :=
  match dt with
  | DataType.Bool =>
    match read_u8 buf with
    | Except.ok (b, rest) =>
        Except.ok ((List.range 8).map (fun i => (((b >>> i) &&& 1 : Nat) : Int)), rest)
    | Except.error e => Except.error e
  | DataType.U8 =>
    match read_u8 buf with
    | Except.ok (b, rest) => Except.ok ([(b : Int)], rest)
    | Except.error e => Except.error e
  | DataType.U16 =>
    match read_u16_be buf with
    | Except.ok (v, rest) => Except.ok ([(v : Int)], rest)
    | Except.error e => Except.error e
  | DataType.I8 =>
    match read_u8 buf with
    | Except.ok (b, rest) => Except.ok ([toI8 b], rest)
    | Except.error e => Except.error e
  | DataType.I16 =>
    match read_u16_be buf with
    | Except.ok (v, rest) => Except.ok ([toI16 v], rest)
    | Except.error e => Except.error e

/-- The `'read: loop` of `writer`, fuelled (each successful step consumes at
least one byte, so fuel `buf.length` never runs out before exhaustion).
Returns the decoded values in order, paired with whether the non-EOF error
arm (`eprintln!("error while parsing ...")`) was taken. -/
def decodeLoopFuel (dt : DataType) : Nat → List Nat → List Int × Bool
  | 0, _ => ([], false)
  | fuel + 1, buf =>
    match decodeStep dt buf with
    | Except.ok (vs, rest) =>
        let p := decodeLoopFuel dt fuel rest
        (vs ++ p.1, p.2)
    | Except.error ReadErrorKind.unexpectedEof => ([], false)
    | Except.error ReadErrorKind.other => ([], true)

/-- The Decoder: the full decode phase of `writer` for one packet.  First
component: the decoded values in buffer order; second component: whether the
non-EOF error branch was taken. -/
def decode (dt : DataType) (buf : List Nat) : List Int × Bool :=
  decodeLoopFuel dt buf.length buf

/-- The eight bit-values the Bool arm emits for one byte, bit 0 first. -/
def boolBits (b : Nat) : List Int :=
  (List.range 8).map (fun i => (((b >>> i) &&& 1 : Nat) : Int))

/-- Closed form of U16 decoding: big-endian pairs, trailing byte dropped. -/
def u16Vals : List Nat → List Int
  | b1 :: b2 :: rest => ((b1 * 256 + b2 : Nat) : Int) :: u16Vals rest
  | _ => []

/-- Closed form of I16 decoding: big-endian pairs reinterpreted as signed,
trailing byte dropped. -/
def i16Vals : List Nat → List Int
  | b1 :: b2 :: rest => toI16 (b1 * 256 + b2) :: i16Vals rest
  | _ => []

/-- The configuration the writer thread receives (the fields of `Cli` that
affect its behaviour; `output : Option PathBuf` is modelled by presence). -/
structure Cli where
  data_type : DataType
  output : Option Unit
deriving DecidableEq

/-- The mutable state of the `writer` loop: `csv_string` and `count`. -/
structure WriterState where
  csv_string : List Char
  count : Nat
deriving DecidableEq

/-- An observable output action of the writer: `print!("{csv_string}")` to
the console, or a call `output_csv(&csv_string, output)`. -/
inductive SinkAction
  | printConsole (s : List Char)
  | appendFile (s : List Char)
deriving DecidableEq

/-- `csv_string.push_str(&value.to_string()); csv_string.push(',');` -/
def pushVal (s : List Char) (v : Int) : List Char :=
  s ++ (toString v).data ++ [',']

/-- The cumulative effect of the decode loop's pushes on `csv_string`. -/
def renderVals (s : List Char) (vals : List Int) : List Char :=
  vals.foldl pushVal s

/-- The net contribution of a single packet to `csv_string`: its decoded
values rendered with a comma after each, then the final `pop`. -/
def packetText (options : Cli) (message : List Nat) : List Char :=
  (renderVals [] (decode options.data_type message).1).dropLast

/-- `writer`'s handling of one `Ok(message)` from the channel: decode and
push onto `csv_string`, `pop` the last character unconditionally, then either
print-and-clear (console) or count up, flushing at 1000 (file). -/
def writerStep (options : Cli) (st : WriterState) (message : List Nat) :
    WriterState × List SinkAction :=
  let vals := (decode options.data_type message).1
  let csv2 := (renderVals st.csv_string vals).dropLast
  match options.output with
  | none => (⟨[], st.count⟩, [SinkAction.printConsole csv2])
  | some _ =>
    let c := st.count + 1
    if c ≥ 1000 then (⟨[], 0⟩, [SinkAction.appendFile csv2])
    else (⟨csv2, c⟩, [])

/-- `writer`'s handling of `Err(TryRecvError::Disconnected)`: one final flush
of whatever `csv_string` holds, then return. -/
def writerDisconnect (options : Cli) (st : WriterState) : List SinkAction :=
  match options.output with
  | none => [SinkAction.printConsole st.csv_string]
  | some _ => [SinkAction.appendFile st.csv_string]

/-- The writer loop over a list of delivered messages (the `Empty` arm only
sleeps, so it is invisible to this model). -/
def writerRun (options : Cli) : WriterState → List (List Nat) → WriterState × List SinkAction
  | st, [] => (st, [])
  | st, m :: ms =>
    let p := writerStep options st m
    let q := writerRun options p.1 ms
    (q.1, p.2 ++ q.2)

/-- A whole writer-thread life: fresh state, a list of delivered messages,
then producer disconnect. -/
def writerRunDisconnect (options : Cli) (msgs : List (List Nat)) : List SinkAction :=
  let p := writerRun options ⟨[], 0⟩ msgs
  p.2 ++ writerDisconnect options p.1

/-- The `OpenOptions` flags (Rust defaults all false, then the builder calls
made by `output_csv`). -/
structure OpenOptionsFlags where
  readFlag : Bool
  writeFlag : Bool
  appendFlag : Bool
  truncateFlag : Bool
  createFlag : Bool
  createNewFlag : Bool
deriving DecidableEq

/-- The open options `output_csv` builds: `.write(true).append(true).create(true)`. -/
def outputCsvOpenOptions : OpenOptionsFlags :=
  { readFlag := false, writeFlag := true, appendFlag := true,
    truncateFlag := false, createFlag := true, createNewFlag := false }

/-- Observable outcome of one `output_csv` call. -/
inductive FlushOutcome
  | written (contents : List Char)
  | writeErrorReportedDropped
  | panicked
deriving DecidableEq

/-- `output_csv`: open (`.unwrap()` panics on open failure), then
`writeln!(file, "{csv_string}")` which appends the text plus a newline;
a write error is reported via `eprintln!` and the content dropped. -/
def output_csv (openOk : Bool) (writeOk : Bool) (csv_string : List Char) : FlushOutcome :=
  if openOk then
    if writeOk then FlushOutcome.written (csv_string ++ ['\n'])
    else FlushOutcome.writeErrorReportedDropped
  else FlushOutcome.panicked

/-- State of `main`'s receive loop: the 512-byte buffer, reused between
iterations. -/
structure RecvState where
  buffer : List Nat
deriving DecidableEq

/-- Result of one `socket.recv(&mut buffer)` call: an error, or a datagram
whose first `data.length` bytes (`≤ 512` after transport truncation) were
written into the front of the buffer. -/
inductive RecvResult
  | recvError
  | recvOk (data : List Nat)

/-- One iteration of `main`'s loop: on `Err` report and keep going; on
`Ok(len)` forward `buffer[0..len].to_vec()` to the channel. -/
def recvStep (st : RecvState) (r : RecvResult) : RecvState × Option (List Nat) :=
  match r with
  | RecvResult.recvError => (st, none)
  | RecvResult.recvOk data =>
    let buf := data ++ st.buffer.drop data.length
    (⟨buf⟩, some (buf.take data.length))

/-- The receive loop folded over a list of recv results: the messages sent
to the writer, in order.  Every iteration continues to the next one. -/
def recvLoop (st : RecvState) : List RecvResult → List (List Nat)
  | [] => []
  | r :: rs =>
    let p := recvStep st r
    (match p.2 with
     | none => []
     | some m => [m]) ++ recvLoop p.1 rs
/-- Modelled from the claim: the fixed-width big-endian encoding of one
unsigned 8-bit value. -/
def encodeU8 (v : Nat) : List Nat := [v % 256]

/-- Modelled from the claim: the fixed-width big-endian encoding of one
unsigned 16-bit value. -/
def encodeU16 (v : Nat) : List Nat := [v / 256 % 256, v % 256]

/-- Modelled from the claim: the two's-complement byte of one signed 8-bit
value. -/
def encodeI8 (v : Int) : List Nat := [(v % 256).toNat]

/-- Modelled from the claim: the two big-endian two's-complement bytes of one
signed 16-bit value. -/
def encodeI16 (v : Int) : List Nat := [(v % 65536).toNat / 256, (v % 65536).toNat % 256]

/-- Spec-side rendering: fragments joined by commas, no trailing delimiter. -/
def joinComma : List (List Char) → List Char
  | [] => []
  | [s] => s
  | s :: rest => s ++ ',' :: joinComma rest

theorem decodeLoopFuel_u8 (f : Nat) (buf : List Nat) (h : buf.length ≤ f) :
    decodeLoopFuel DataType.U8 f buf = (buf.map (fun b : Nat => (b : Int)), false) := by
  induction f generalizing buf with
  | zero =>
    have : buf = [] := List.eq_nil_of_length_eq_zero (Nat.le_zero.mp h)
    simp [this, decodeLoopFuel]
  | succ f ih =>
    cases buf with
    | nil => simp [decodeLoopFuel, decodeStep, read_u8]
    | cons b rest =>
      simp only [decodeLoopFuel, decodeStep, read_u8]
      rw [ih rest (by simp at h; omega)]
      simp

theorem decode_u8_eq (buf : List Nat) :
    decode DataType.U8 buf = (buf.map (fun b : Nat => (b : Int)), false) :=
  decodeLoopFuel_u8 buf.length buf le_rfl

theorem decodeLoopFuel_i8 (f : Nat) (buf : List Nat) (h : buf.length ≤ f) :
    decodeLoopFuel DataType.I8 f buf = (buf.map toI8, false) := by
  induction f generalizing buf with
  | zero =>
    have : buf = [] := List.eq_nil_of_length_eq_zero (Nat.le_zero.mp h)
    simp [this, decodeLoopFuel]
  | succ f ih =>
    cases buf with
    | nil => simp [decodeLoopFuel, decodeStep, read_u8]
    | cons b rest =>
      simp only [decodeLoopFuel, decodeStep, read_u8]
      rw [ih rest (by simp at h; omega)]
      simp

theorem decode_i8_eq (buf : List Nat) :
    decode DataType.I8 buf = (buf.map toI8, false) :=
  decodeLoopFuel_i8 buf.length buf le_rfl

theorem decodeLoopFuel_bool (f : Nat) (buf : List Nat) (h : buf.length ≤ f) :
    decodeLoopFuel DataType.Bool f buf = (buf.flatMap boolBits, false) := by
  induction f generalizing buf with
  | zero =>
    have : buf = [] := List.eq_nil_of_length_eq_zero (Nat.le_zero.mp h)
    simp [this, decodeLoopFuel]
  | succ f ih =>
    cases buf with
    | nil => simp [decodeLoopFuel, decodeStep, read_u8]
    | cons b rest =>
      simp only [decodeLoopFuel, decodeStep, read_u8]
      rw [ih rest (by simp at h; omega)]
      simp [boolBits]

theorem decode_bool_eq (buf : List Nat) :
    decode DataType.Bool buf = (buf.flatMap boolBits, false) :=
  decodeLoopFuel_bool buf.length buf le_rfl

theorem decodeLoopFuel_u16 (f : Nat) (buf : List Nat) (h : buf.length ≤ f) :
    decodeLoopFuel DataType.U16 f buf = (u16Vals buf, false) := by
  induction f generalizing buf with
  | zero =>
    have : buf = [] := List.eq_nil_of_length_eq_zero (Nat.le_zero.mp h)
    simp [this, decodeLoopFuel, u16Vals]
  | succ f ih =>
    match buf with
    | [] => simp [decodeLoopFuel, decodeStep, read_u16_be, u16Vals]
    | [b] => simp [decodeLoopFuel, decodeStep, read_u16_be, u16Vals]
    | b1 :: b2 :: rest =>
      simp only [decodeLoopFuel, decodeStep, read_u16_be]
      rw [ih rest (by simp at h; omega)]
      simp [u16Vals]

theorem decode_u16_eq (buf : List Nat) :
    decode DataType.U16 buf = (u16Vals buf, false) :=
  decodeLoopFuel_u16 buf.length buf le_rfl

theorem decodeLoopFuel_i16 (f : Nat) (buf : List Nat) (h : buf.length ≤ f) :
    decodeLoopFuel DataType.I16 f buf = (i16Vals buf, false) := by
  induction f generalizing buf with
  | zero =>
    have : buf = [] := List.eq_nil_of_length_eq_zero (Nat.le_zero.mp h)
    simp [this, decodeLoopFuel, i16Vals]
  | succ f ih =>
    match buf with
    | [] => simp [decodeLoopFuel, decodeStep, read_u16_be, i16Vals]
    | [b] => simp [decodeLoopFuel, decodeStep, read_u16_be, i16Vals]
    | b1 :: b2 :: rest =>
      simp only [decodeLoopFuel, decodeStep, read_u16_be]
      rw [ih rest (by simp at h; omega)]
      simp [i16Vals]

theorem decode_i16_eq (buf : List Nat) :
    decode DataType.I16 buf = (i16Vals buf, false) :=
  decodeLoopFuel_i16 buf.length buf le_rfl

theorem u16Vals_length (buf : List Nat) : (u16Vals buf).length = buf.length / 2 := by
  induction buf using u16Vals.induct with
  | case1 b1 b2 rest ih => simp [u16Vals, ih]; omega
  | case2 l h =>
    cases l with
    | nil => simp [u16Vals]
    | cons a t =>
      cases t with
      | nil => simp [u16Vals]
      | cons a2 t2 => exact absurd rfl (h a a2 t2)

theorem i16Vals_length (buf : List Nat) : (i16Vals buf).length = buf.length / 2 := by
  induction buf using i16Vals.induct with
  | case1 b1 b2 rest ih => simp [i16Vals, ih]; omega
  | case2 l h =>
    cases l with
    | nil => simp [i16Vals]
    | cons a t =>
      cases t with
      | nil => simp [i16Vals]
      | cons a2 t2 => exact absurd rfl (h a a2 t2)

theorem boolBits_length (b : Nat) : (boolBits b).length = 8 := by
  simp [boolBits]


theorem flatMap_boolBits_length (buf : List Nat) :
    (buf.flatMap boolBits).length = 8 * buf.length := by
  induction buf with
  | nil => simp
  | cons b rest ih => simp [ih, boolBits]; ring

theorem renderVals_append (s : List Char) (vals : List Int) :
    renderVals s vals = s ++ renderVals [] vals := by
  induction vals generalizing s with
  | nil => simp [renderVals]
  | cons v vs ih =>
    show renderVals (pushVal s v) vs = s ++ renderVals (pushVal [] v) vs
    rw [ih, ih (pushVal [] v)]
    simp [pushVal]

theorem renderVals_nil_ne_nil (v : Int) (vs : List Int) :
    renderVals [] (v :: vs) ≠ [] := by
  show renderVals (pushVal [] v) vs ≠ []
  rw [renderVals_append]
  simp [pushVal]

theorem dropLast_renderVals (s : List Char) (vals : List Int) (h : vals ≠ []) :
    (renderVals s vals).dropLast = s ++ (renderVals [] vals).dropLast := by
  match vals, h with
  | v :: vs, _ =>
    rw [renderVals_append]
    exact List.dropLast_append_of_ne_nil s (renderVals_nil_ne_nil v vs)

theorem writerStep_file_noflush (options : Cli) (st : WriterState) (m : List Nat)
    (hout : options.output = some ()) (h : st.count + 1 < 1000) :
    writerStep options st m =
      (⟨(renderVals st.csv_string (decode options.data_type m).1).dropLast, st.count + 1⟩, []) := by
  simp only [writerStep, hout]
  rw [if_neg (by omega)]

theorem writerStep_file_flush (options : Cli) (st : WriterState) (m : List Nat)
    (hout : options.output = some ()) (h : st.count + 1 ≥ 1000) :
    writerStep options st m =
      (⟨[], 0⟩,
        [SinkAction.appendFile
          ((renderVals st.csv_string (decode options.data_type m).1).dropLast)]) := by
  simp only [writerStep, hout]
  rw [if_pos h]

theorem writerStep_console (options : Cli) (st : WriterState) (m : List Nat)
    (hout : options.output = none) :
    writerStep options st m =
      (⟨[], st.count⟩,
        [SinkAction.printConsole
          ((renderVals st.csv_string (decode options.data_type m).1).dropLast)]) := by
  simp only [writerStep, hout]

theorem writerRun_file_noflush (options : Cli) (hout : options.output = some ()) :
    ∀ (msgs : List (List Nat)) (st : WriterState), st.count + msgs.length < 1000 →
      (writerRun options st msgs).2 = [] ∧
      (writerRun options st msgs).1.count = st.count + msgs.length := by
  intro msgs
  induction msgs with
  | nil => intro st h; simp [writerRun]
  | cons m ms ih =>
    intro st h
    have hstep := writerStep_file_noflush options st m hout (by simp at h; omega)
    simp only [writerRun, hstep]
    have hrest := ih ⟨(renderVals st.csv_string (decode options.data_type m).1).dropLast,
      st.count + 1⟩ (by simp at h ⊢; omega)
    refine ⟨hrest.1, ?_⟩
    rw [hrest.2]
    simp
    omega

theorem writerRun_file_flush_exact (options : Cli) (hout : options.output = some ()) :
    ∀ (msgs : List (List Nat)) (st : WriterState), msgs ≠ [] →
      st.count + msgs.length = 1000 →
      (writerRun options st msgs).1 = ⟨[], 0⟩ ∧
      ∃ s, (writerRun options st msgs).2 = [SinkAction.appendFile s] := by
  intro msgs
  induction msgs with
  | nil => intro st hne _; exact absurd rfl hne
  | cons m ms ih =>
    intro st _ hcount
    cases ms with
    | nil =>
      have hstep := writerStep_file_flush options st m hout (by simp at hcount; omega)
      simp only [writerRun, hstep]
      exact ⟨by simp, (renderVals st.csv_string (decode options.data_type m).1).dropLast, by simp⟩
    | cons m2 ms2 =>
      have hstep := writerStep_file_noflush options st m hout (by simp at hcount; omega)
      simp only [writerRun, hstep]
      have hrest := ih ⟨(renderVals st.csv_string (decode options.data_type m).1).dropLast,
        st.count + 1⟩ (by simp) (by simp at hcount ⊢; omega)
      refine ⟨hrest.1, ?_⟩
      obtain ⟨s, hs⟩ := hrest.2
      exact ⟨s, by simp only [writerRun] at hs ⊢; rw [hs]; simp⟩

theorem writerRun_file_csv (options : Cli) (hout : options.output = some ()) :
    ∀ (msgs : List (List Nat)) (st : WriterState), st.count + msgs.length < 1000 →
      (∀ m ∈ msgs, (decode options.data_type m).1 ≠ []) →
      (writerRun options st msgs).1.csv_string =
        st.csv_string ++ msgs.flatMap (packetText options) := by
  intro msgs
  induction msgs with
  | nil => intro st _ _; simp [writerRun]
  | cons m ms ih =>
    intro st h hne
    have hstep := writerStep_file_noflush options st m hout (by simp at h; omega)
    simp only [writerRun, hstep]
    have hm : (decode options.data_type m).1 ≠ [] := hne m (by simp)
    have hcsv : (renderVals st.csv_string (decode options.data_type m).1).dropLast =
        st.csv_string ++ packetText options m :=
      dropLast_renderVals st.csv_string _ hm
    have hrest := ih ⟨(renderVals st.csv_string (decode options.data_type m).1).dropLast,
      st.count + 1⟩ (by simp at h ⊢; omega) (fun x hx => hne x (by simp [hx]))
    simp only [hrest]
    simp [hcsv, packetText]

theorem writerRun_console_csv (options : Cli) (hout : options.output = none) :
    ∀ (msgs : List (List Nat)) (st : WriterState), st.csv_string = [] →
      (writerRun options st msgs).1.csv_string = [] := by
  intro msgs
  induction msgs with
  | nil => intro st h; simpa [writerRun] using h
  | cons m ms ih =>
    intro st h
    have hstep := writerStep_console options st m hout
    simp only [writerRun, hstep]
    exact ih ⟨[], st.count⟩ rfl

theorem dropLast_renderVals_nil (vals : List Int) :
    (renderVals [] vals).dropLast = joinComma (vals.map (fun v => (toString v).data)) := by
  induction vals with
  | nil => simp [renderVals, joinComma]
  | cons v vs ih =>
    cases vs with
    | nil =>
      show (renderVals (pushVal [] v) []).dropLast = _
      simp [renderVals, pushVal, joinComma]
    | cons v2 vs2 =>
      show (renderVals (pushVal [] v) (v2 :: vs2)).dropLast = _
      rw [renderVals_append (pushVal [] v)]
      rw [List.dropLast_append_of_ne_nil _ (renderVals_nil_ne_nil v2 vs2)]
      rw [ih]
      simp [pushVal, joinComma]

theorem toI8_encodeI8 (v : Int) (h1 : -128 ≤ v) (h2 : v < 128) :
    toI8 ((v % 256).toNat) = v := by
  unfold toI8
  split <;> omega

theorem toI16_encodeI16 (v : Int) (h1 : -32768 ≤ v) (h2 : v < 32768) :
    toI16 ((v % 65536).toNat / 256 * 256 + (v % 65536).toNat % 256) = v := by
  have hnm : (v % 65536).toNat / 256 * 256 + (v % 65536).toNat % 256 = (v % 65536).toNat := by
    omega
  rw [hnm]
  unfold toI16
  split <;> omega

theorem flatMap_encodeU8 (l : List Nat) (h : ∀ v ∈ l, v < 256) : l.flatMap encodeU8 = l := by
  induction l with
  | nil => simp
  | cons v vs ih =>
    simp only [List.flatMap_cons, encodeU8, List.cons_append, List.nil_append]
    rw [Nat.mod_eq_of_lt (h v (by simp))]
    exact congrArg _ (ih fun x hx => h x (by simp [hx]))

theorem roundtrip_u8 (l : List Nat) (h : ∀ v ∈ l, v < 256) :
    (decode DataType.U8 (l.flatMap encodeU8)).1 = l.map (fun v : Nat => (v : Int)) := by
  rw [flatMap_encodeU8 l h, decode_u8_eq]

theorem roundtrip_u16 (l : List Nat) (h : ∀ v ∈ l, v < 65536) :
    (decode DataType.U16 (l.flatMap encodeU16)).1 = l.map (fun v : Nat => (v : Int)) := by
  rw [decode_u16_eq]
  induction l with
  | nil => simp [u16Vals]
  | cons v vs ih =>
    have hv : v / 256 % 256 * 256 + v % 256 = v := by
      have := h v (by simp)
      omega
    simp only [List.flatMap_cons, encodeU16, List.cons_append, List.nil_append, u16Vals,
      List.map_cons]
    rw [hv]
    exact congrArg (List.cons ((v : Nat) : Int)) (ih (fun x hx => h x (by simp [hx])))

theorem roundtrip_i8 (l : List Int) (h : ∀ v ∈ l, -128 ≤ v ∧ v < 128) :
    (decode DataType.I8 (l.flatMap encodeI8)).1 = l := by
  rw [decode_i8_eq]
  induction l with
  | nil => simp
  | cons v vs ih =>
    simp only [List.flatMap_cons, encodeI8, List.cons_append, List.nil_append, List.map_cons]
    rw [toI8_encodeI8 v (h v (by simp)).1 (h v (by simp)).2]
    exact congrArg (List.cons v) (ih (fun x hx => h x (by simp [hx])))

theorem roundtrip_i16 (l : List Int) (h : ∀ v ∈ l, -32768 ≤ v ∧ v < 32768) :
    (decode DataType.I16 (l.flatMap encodeI16)).1 = l := by
  rw [decode_i16_eq]
  induction l with
  | nil => simp [i16Vals]
  | cons v vs ih =>
    simp only [List.flatMap_cons, encodeI16, List.cons_append, List.nil_append, i16Vals]
    rw [toI16_encodeI16 v (h v (by simp)).1 (h v (by simp)).2]
    exact congrArg (List.cons v) (ih (fun x hx => h x (by simp [hx])))

/-- C1: for every byte buffer and every element type, the decoder emits
exactly `⌊L/w⌋` values in buffer order (`w = 1` for U8/I8, `w = 2` for
U16/I16, and `8·L` bit-values for Bool); the trailing `L mod w` bytes are
discarded with no error raised and no partial value emitted. -/
theorem c1_decoder_element_counts (buf : List Nat) :
    (decode DataType.U8 buf).1.length = buf.length ∧
    (decode DataType.I8 buf).1.length = buf.length ∧
    (decode DataType.U16 buf).1.length = buf.length / 2 ∧
    (decode DataType.I16 buf).1.length = buf.length / 2 ∧
    (decode DataType.Bool buf).1.length = 8 * buf.length ∧
    (∀ dt, (decode dt buf).2 = false) := by
  refine ⟨?_, ?_, ?_, ?_, ?_, ?_⟩
  · rw [decode_u8_eq]; simp only [List.length_map]
  · rw [decode_i8_eq]; simp only [List.length_map]
  · rw [decode_u16_eq]; exact u16Vals_length buf
  · rw [decode_i16_eq]; exact i16Vals_length buf
  · rw [decode_bool_eq]; exact flatMap_boolBits_length buf
  · intro dt
    cases dt
    · rw [decode_bool_eq]
    · rw [decode_u8_eq]
    · rw [decode_u16_eq]
    · rw [decode_i8_eq]
    · rw [decode_i16_eq]

/-- C2: under Bool, each byte `b` yields the eight bit-values
`(b >> i) & 1` for `i = 0..7`, least-significant bit first, before the rest
of the buffer; in particular byte `0b00000101` yields `[1,0,1,0,0,0,0,0]`. -/
theorem c2_bool_bits_lsb_first (b : Nat) (buf : List Nat) (h : b < 256) :
    (decode DataType.Bool (b :: buf)).1 =
      (List.range 8).map (fun i => (((b >>> i) &&& 1 : Nat) : Int)) ++
        (decode DataType.Bool buf).1 ∧
    (decode DataType.Bool [5]).1 = [1, 0, 1, 0, 0, 0, 0, 0] := by
  constructor
  · rw [decode_bool_eq, decode_bool_eq]
    simp [boolBits]
  · decide

/-- Witness for C2 at byte 5 against the empty remaining buffer. -/
theorem c2_bool_bits_lsb_first_witness :
    (5 : Nat) < 256 ∧
    ((decode DataType.Bool (5 :: [])).1 =
      (List.range 8).map (fun i => ((((5 : Nat) >>> i) &&& 1 : Nat) : Int)) ++
        (decode DataType.Bool []).1 ∧
    (decode DataType.Bool [5]).1 = [1, 0, 1, 0, 0, 0, 0, 0]) :=
  ⟨by decide, c2_bool_bits_lsb_first 5 [] (by decide)⟩

/-- C3: encoding a sequence of in-range integers as fixed-width big-endian
bytes and decoding with the matching numeric element type returns the
original sequence, for each of U8, U16, I8, I16. -/
theorem c3_roundtrip_big_endian :
    (∀ l : List Nat, (∀ v ∈ l, v < 256) →
      (decode DataType.U8 (l.flatMap encodeU8)).1 = l.map (fun v : Nat => (v : Int))) ∧
    (∀ l : List Nat, (∀ v ∈ l, v < 65536) →
      (decode DataType.U16 (l.flatMap encodeU16)).1 = l.map (fun v : Nat => (v : Int))) ∧
    (∀ l : List Int, (∀ v ∈ l, -128 ≤ v ∧ v < 128) →
      (decode DataType.I8 (l.flatMap encodeI8)).1 = l) ∧
    (∀ l : List Int, (∀ v ∈ l, -32768 ≤ v ∧ v < 32768) →
      (decode DataType.I16 (l.flatMap encodeI16)).1 = l) :=
  ⟨roundtrip_u8, roundtrip_u16, roundtrip_i8, roundtrip_i16⟩

/-- Witness for C3 at the extreme values of each numeric type. -/
theorem c3_roundtrip_big_endian_witness :
    ((∀ v ∈ [0, 255], v < 256) ∧
      (decode DataType.U8 ([0, 255].flatMap encodeU8)).1 =
        [0, 255].map (fun v : Nat => (v : Int))) ∧
    ((∀ v ∈ [0, 1, 65535], v < 65536) ∧
      (decode DataType.U16 ([0, 1, 65535].flatMap encodeU16)).1 =
        [0, 1, 65535].map (fun v : Nat => (v : Int))) ∧
    ((∀ v ∈ [-128, -1, 127], -128 ≤ v ∧ v < 128) ∧
      (decode DataType.I8 (([-128, -1, 127] : List Int).flatMap encodeI8)).1 =
        [-128, -1, 127]) ∧
    ((∀ v ∈ [-32768, -1, 32767], -32768 ≤ v ∧ v < 32768) ∧
      (decode DataType.I16 (([-32768, -1, 32767] : List Int).flatMap encodeI16)).1 =
        [-32768, -1, 32767]) :=
  ⟨⟨by decide, c3_roundtrip_big_endian.1 _ (by decide)⟩,
   ⟨by decide, c3_roundtrip_big_endian.2.1 _ (by decide)⟩,
   ⟨by decide, c3_roundtrip_big_endian.2.2.1 _ (by decide)⟩,
   ⟨by decide, c3_roundtrip_big_endian.2.2.2 _ (by decide)⟩⟩

/-- C9: for every in-memory packet buffer and every element type, the decode
loop's non-end-of-buffer error branch is never taken: decoding stops only by
buffer exhaustion. -/
theorem c9_decode_failure_branch_unreachable (dt : DataType) (buf : List Nat) :
    (decode dt buf).2 = false := by
  cases dt
  · rw [decode_bool_eq]
  · rw [decode_u8_eq]
  · rw [decode_u16_eq]
  · rw [decode_i8_eq]
  · rw [decode_i16_eq]

/-- C4 counterexample: in file mode a packet that decodes to zero values
(here the empty datagram after a one-value packet) leaves the accumulated
buffer different from the concatenation of the packets' renderings, because
the trailing-comma `pop` runs unconditionally. -/
theorem c4_counterexample :
    (writerRun ⟨DataType.U8, some ()⟩ ⟨[], 0⟩ [[1], []]).1.csv_string ≠
      [[1], []].flatMap (packetText ⟨DataType.U8, some ()⟩) := by
  decide

/-- C4 (amended): provided every packet decodes to at least one value, each
packet's rendering is its decoded values' base-10 texts joined by commas
with no trailing delimiter, and the file-mode accumulator (below the flush
threshold) is exactly the separator-free concatenation of those renderings. -/
theorem c4_formatter_concatenation (options : Cli) (msgs : List (List Nat))
    (hout : options.output = some ()) (hlen : msgs.length < 1000)
    (hne : ∀ m ∈ msgs, (decode options.data_type m).1 ≠ []) :
    (∀ m : List Nat, packetText options m =
      joinComma (((decode options.data_type m).1).map (fun v => (toString v).data))) ∧
    (writerRun options ⟨[], 0⟩ msgs).1.csv_string = msgs.flatMap (packetText options) := by
  constructor
  · intro m
    exact dropLast_renderVals_nil _
  · have hcsv := writerRun_file_csv options hout msgs ⟨[], 0⟩ (by simpa using hlen) hne
    simpa using hcsv

/-- Witness for C4 (amended): two U8 packets in file mode. -/
theorem c4_formatter_concatenation_witness :
    ((⟨DataType.U8, some ()⟩ : Cli).output = some () ∧
      ([[10, 20], [30]] : List (List Nat)).length < 1000 ∧
      (∀ m ∈ ([[10, 20], [30]] : List (List Nat)),
        (decode DataType.U8 m).1 ≠ [])) ∧
    ((∀ m : List Nat, packetText ⟨DataType.U8, some ()⟩ m =
      joinComma (((decode DataType.U8 m).1).map (fun v => (toString v).data))) ∧
    (writerRun ⟨DataType.U8, some ()⟩ ⟨[], 0⟩ [[10, 20], [30]]).1.csv_string =
      [[10, 20], [30]].flatMap (packetText ⟨DataType.U8, some ()⟩)) :=
  ⟨⟨rfl, by decide, by decide⟩,
    c4_formatter_concatenation ⟨DataType.U8, some ()⟩ [[10, 20], [30]] rfl (by decide) (by decide)⟩

/-- C5: in file mode the counter goes up by one per packet; strictly below
1000 nothing is flushed, exactly at 1000 the accumulated buffer is flushed
and both the buffer and the counter are reset; a run of exactly 1000 packets
performs exactly one flush and ends with the counter at 0. -/
theorem c5_file_flush_threshold (options : Cli) (hout : options.output = some ()) :
    (∀ (st : WriterState) (m : List Nat), st.count + 1 < 1000 →
      writerStep options st m =
        (⟨(renderVals st.csv_string (decode options.data_type m).1).dropLast,
          st.count + 1⟩, [])) ∧
    (∀ (st : WriterState) (m : List Nat), st.count + 1 = 1000 →
      writerStep options st m =
        (⟨[], 0⟩, [SinkAction.appendFile
          ((renderVals st.csv_string (decode options.data_type m).1).dropLast)])) ∧
    (∀ msgs : List (List Nat), msgs.length = 1000 →
      (writerRun options ⟨[], 0⟩ msgs).1 = ⟨[], 0⟩ ∧
      ∃ s, (writerRun options ⟨[], 0⟩ msgs).2 = [SinkAction.appendFile s]) := by
  refine ⟨fun st m h => writerStep_file_noflush options st m hout h,
    fun st m h => writerStep_file_flush options st m hout (by omega),
    fun msgs h => ?_⟩
  exact writerRun_file_flush_exact options hout msgs ⟨[], 0⟩
    (by intro he; rw [he] at h; simp at h) (by simpa using h)

/-- Witness for C5: U8 file mode, exercising the step below the threshold,
the step at the threshold, and a run of 1000 packets. -/
theorem c5_file_flush_threshold_witness :
    (⟨DataType.U8, some ()⟩ : Cli).output = some () ∧
    ((0 : Nat) + 1 < 1000 ∧
      writerStep ⟨DataType.U8, some ()⟩ ⟨[], 0⟩ [7] =
        (⟨(renderVals [] (decode DataType.U8 [7]).1).dropLast, 0 + 1⟩, [])) ∧
    ((999 : Nat) + 1 = 1000 ∧
      writerStep ⟨DataType.U8, some ()⟩ ⟨['1'], 999⟩ [7] =
        (⟨[], 0⟩, [SinkAction.appendFile
          ((renderVals ['1'] (decode DataType.U8 [7]).1).dropLast)])) ∧
    ((List.replicate 1000 ([] : List Nat)).length = 1000 ∧
      (writerRun ⟨DataType.U8, some ()⟩ ⟨[], 0⟩ (List.replicate 1000 [])).1 = ⟨[], 0⟩ ∧
      ∃ s, (writerRun ⟨DataType.U8, some ()⟩ ⟨[], 0⟩ (List.replicate 1000 [])).2 =
        [SinkAction.appendFile s]) :=
  ⟨rfl,
    ⟨by decide, (c5_file_flush_threshold ⟨DataType.U8, some ()⟩ rfl).1 ⟨[], 0⟩ [7] (by decide)⟩,
    ⟨by decide, (c5_file_flush_threshold ⟨DataType.U8, some ()⟩ rfl).2.1 ⟨['1'], 999⟩ [7]
      (by decide)⟩,
    ⟨List.length_replicate 1000 [], (c5_file_flush_threshold ⟨DataType.U8, some ()⟩ rfl).2.2
      (List.replicate 1000 []) (List.length_replicate 1000 [])⟩⟩

/-- C6: on producer disconnect the consumer flushes the remaining buffer
exactly once (to the file, or to the console where the accumulator is
already empty) and terminates; with three buffered packets in file mode the
single flush carries the three packets' concatenated text. -/
theorem c6_shutdown_flush_once (options : Cli) (msgs : List (List Nat))
    (hlen : msgs.length < 1000) :
    (options.output = some () →
      writerRunDisconnect options msgs =
        [SinkAction.appendFile (writerRun options ⟨[], 0⟩ msgs).1.csv_string]) ∧
    (options.output = some () →
      ∀ m1 m2 m3 : List Nat,
        (∀ m ∈ [m1, m2, m3], (decode options.data_type m).1 ≠ []) →
        writerRunDisconnect options [m1, m2, m3] =
          [SinkAction.appendFile
            (packetText options m1 ++ (packetText options m2 ++ packetText options m3))]) ∧
    (options.output = none →
      writerRunDisconnect options msgs =
        (writerRun options ⟨[], 0⟩ msgs).2 ++ [SinkAction.printConsole []]) := by
  refine ⟨fun hout => ?_, fun hout m1 m2 m3 hne => ?_, fun hout => ?_⟩
  · have hacts := (writerRun_file_noflush options hout msgs ⟨[], 0⟩ (by simpa using hlen)).1
    simp only [writerRunDisconnect, writerDisconnect, hout, hacts]
    simp
  · have hacts := (writerRun_file_noflush options hout [m1, m2, m3] ⟨[], 0⟩ (by simp)).1
    have hcsv := writerRun_file_csv options hout [m1, m2, m3] ⟨[], 0⟩ (by simp) hne
    simp only [writerRunDisconnect, writerDisconnect, hout, hacts, hcsv]
    simp
  · have hcsv := writerRun_console_csv options hout msgs ⟨[], 0⟩ rfl
    simp only [writerRunDisconnect, writerDisconnect, hout, hcsv]

/-- Witness for C6: disconnect after three one-byte U8 packets in file mode,
and after the same packets in console mode. -/
theorem c6_shutdown_flush_once_witness :
    ([[1], [2], [3]] : List (List Nat)).length < 1000 ∧
    ((⟨DataType.U8, some ()⟩ : Cli).output = some () ∧
      (∀ m ∈ ([[1], [2], [3]] : List (List Nat)), (decode DataType.U8 m).1 ≠ []) ∧
      writerRunDisconnect ⟨DataType.U8, some ()⟩ [[1], [2], [3]] =
        [SinkAction.appendFile
          (packetText ⟨DataType.U8, some ()⟩ [1] ++ (packetText ⟨DataType.U8, some ()⟩ [2] ++
            packetText ⟨DataType.U8, some ()⟩ [3]))]) ∧
    ((⟨DataType.U8, none⟩ : Cli).output = none ∧
      writerRunDisconnect ⟨DataType.U8, none⟩ [[1], [2], [3]] =
        (writerRun ⟨DataType.U8, none⟩ ⟨[], 0⟩ [[1], [2], [3]]).2 ++
          [SinkAction.printConsole []]) :=
  ⟨by decide,
    ⟨rfl, by decide,
      (c6_shutdown_flush_once ⟨DataType.U8, some ()⟩ [[1], [2], [3]] (by decide)).2.1 rfl
        [1] [2] [3] (by decide)⟩,
    ⟨rfl, (c6_shutdown_flush_once ⟨DataType.U8, none⟩ [[1], [2], [3]] (by decide)).2.2 rfl⟩⟩

/-- C7 counterexample: a flush whose file open fails panics (the `unwrap`),
it is not reported-and-dropped as the claim states for open failures. -/
theorem c7_counterexample :
    output_csv false true ['x'] = FlushOutcome.panicked ∧
    FlushOutcome.panicked ≠ FlushOutcome.writeErrorReportedDropped := by
  exact ⟨rfl, by decide⟩

/-- C7 (amended): every flush opens the destination with append and create
set and truncate unset; after a successful open, a successful write appends
the buffer plus a newline, and a failed write is reported and its content
dropped; a failed open, however, panics the writer thread. -/
theorem c7_append_mode_flush_outcomes (csv : List Char) :
    outputCsvOpenOptions.appendFlag = true ∧
    outputCsvOpenOptions.createFlag = true ∧
    outputCsvOpenOptions.truncateFlag = false ∧
    output_csv true true csv = FlushOutcome.written (csv ++ ['\n']) ∧
    output_csv true false csv = FlushOutcome.writeErrorReportedDropped ∧
    (∀ w : Bool, output_csv false w csv = FlushOutcome.panicked) :=
  ⟨rfl, rfl, rfl, rfl, rfl, fun _ => rfl⟩

/-- C8: a failed receive is reported and the loop goes on unchanged to the
next receive (it never terminates the loop); a successful receive of `n`
bytes forwards exactly the first `n` bytes of the receive buffer. -/
theorem c8_receive_loop_resilience (st : RecvState) (rs : List RecvResult)
    (data : List Nat) :
    recvStep st RecvResult.recvError = (st, none) ∧
    recvLoop st (RecvResult.recvError :: rs) = recvLoop st rs ∧
    (recvStep st (RecvResult.recvOk data)).2 =
      some ((recvStep st (RecvResult.recvOk data)).1.buffer.take data.length) ∧
    (recvStep st (RecvResult.recvOk data)).1.buffer.take data.length = data := by
  refine ⟨rfl, by simp [recvLoop, recvStep], rfl, ?_⟩
  simp only [recvStep]
  rw [List.take_append_of_le_length le_rfl]
  simp

/-- C10 (implicit): a packet that decodes to zero values still runs the
trailing-comma removal, so in file mode (below the threshold) it strips the
final character of the previously accumulated buffer; in console mode the
accumulator is always empty, making the removal a no-op there. -/
theorem c10_empty_packet_pops_accumulator (options : Cli) (st : WriterState)
    (m : List Nat) (hout : options.output = some ())
    (hm : (decode options.data_type m).1 = []) (hc : st.count + 1 < 1000) :
    writerStep options st m = (⟨st.csv_string.dropLast, st.count + 1⟩, []) ∧
    (∀ (dt : DataType) (msgs : List (List Nat)),
      (writerRun ⟨dt, none⟩ ⟨[], 0⟩ msgs).1.csv_string = []) := by
  constructor
  · have hstep := writerStep_file_noflush options st m hout hc
    rw [hstep, hm]
    rfl
  · intro dt msgs
    exact writerRun_console_csv ⟨dt, none⟩ rfl msgs ⟨[], 0⟩ rfl

/-- Witness for C10: a one-byte datagram under U16 decodes to nothing and
strips the last character of the accumulated text. -/
theorem c10_empty_packet_pops_accumulator_witness :
    ((⟨DataType.U16, some ()⟩ : Cli).output = some () ∧
      (decode DataType.U16 [9]).1 = [] ∧ (3 : Nat) + 1 < 1000) ∧
    (writerStep ⟨DataType.U16, some ()⟩ ⟨['1', '2'], 3⟩ [9] =
      (⟨['1', '2'].dropLast, 3 + 1⟩, []) ∧
    (∀ (dt : DataType) (msgs : List (List Nat)),
      (writerRun ⟨dt, none⟩ ⟨[], 0⟩ msgs).1.csv_string = [])) :=
  ⟨⟨rfl, by decide, by decide⟩,
    c10_empty_packet_pops_accumulator ⟨DataType.U16, some ()⟩ ⟨['1', '2'], 3⟩ [9]
      rfl (by decide) (by decide)⟩
